import Mathlib

/-!
Verification of the bias-analysis backend (`src/backend/analyze_bias.py`).

The Python module has two functions:

* `callBiasLLM(llmItems)` — builds a payload from a list of
  `{index, text}` items, performs one outbound call to a text-completion
  service, parses the raw response text as JSON, and returns the parsed
  list.  Non-JSON responses raise a RuntimeError whose message embeds the
  raw text; JSON responses that are not lists raise a shape RuntimeError.
* `analyzeBias(paragraphs)` — indexes the paragraphs, calls the adapter,
  filters out judgments whose label is falsy or equal to the neutral tag
  "None", merges the survivors with the original paragraph text keyed by
  index in a dict (last write wins), and returns the entries sorted by
  ascending index.

The embedding below models the outbound service and the JSON decoder as
oracle parameters (they are external collaborators), and models Python
runtime failures (IndexError from `paragraphs[idx]`, the RuntimeErrors of
the adapter) with `Except`.  Python list indexing semantics — negative
indices count from the end — are modelled faithfully by `pyGet`.
-/

namespace UnBiased

/-- A JSON value as produced by the Python `json.loads` decoder
(numbers are modelled as integers; no claim depends on floats). -/
inductive Json where
  | null : Json
  | bool : Bool → Json
  | num : Int → Json
  | str : String → Json
  | arr : List Json → Json
  | obj : List (String × Json) → Json
deriving Repr

/-- An outbound item `{"index": idx, "text": text}` built by `analyzeBias`
from one paragraph (source lines 138-139). -/
structure AnalysisItem where
  index : Nat
  text : String
deriving Repr, DecidableEq

/-- A judgment object returned by the adapter, as consumed by
`analyzeBias` (source lines 145-148): `item["index"]` is mandatory,
`item.get("label", "None")` and `item.get("reason", "")` may be absent
(`none` models an absent key).  The field `jtext` models any text the
service echoes back inside the judgment; the Python loop never reads it. -/
structure Judgment where
  index : Int
  label : Option String
  reason : Option String
  jtext : Option String
deriving Repr, DecidableEq

/-- A final output entry `{"index", "text", "label", "reason"}`
(source lines 152-157 and 165-170). -/
structure ResultEntry where
  index : Int
  text : String
  label : String
  reason : String
deriving Repr, DecidableEq

/-- A Python runtime failure escaping `analyzeBias`: the IndexError raised
by `paragraphs[idx]` when `idx` is out of range (source line 154). -/
inductive PyError where
  | indexError : Int → PyError
deriving Repr, DecidableEq

/-- The failures of `callBiasLLM` (source lines 111-117): the RuntimeError
for non-JSON output text, carrying the raw text, and the RuntimeError for
parsed output that is not a list, carrying the parsed value. -/
inductive LLMFailure where
  | nonJsonOutput : String → LLMFailure
  | outputNotList : Json → LLMFailure
deriving Repr

instance {ε α : Type} [DecidableEq ε] [DecidableEq α] : DecidableEq (Except ε α)
  | .ok a, .ok b =>
    if h : a = b then .isTrue (by rw [h])
    else .isFalse (by intro hc; cases hc; exact h rfl)
  | .ok _, .error _ => .isFalse (by intro hc; cases hc)
  | .error _, .ok _ => .isFalse (by intro hc; cases hc)
  | .error e, .error f =>
    if h : e = f then .isTrue (by rw [h])
    else .isFalse (by intro hc; cases hc; exact h rfl)

/-- The message of the RuntimeError raised on non-JSON output, the
f-string at source line 114. -/
def nonJsonMessage (raw : String) : String :=
  "[Log] LLM returned non JSON output: " ++ raw

/-- `callBiasLLM` (source lines 27-124), with the outbound service and the
JSON decoder as oracle parameters.  `service` maps the outbound item list
to the raw response text (`response.output[0].content[0].text`);
`jsonLoads` is the decoder, returning `none` exactly when `json.loads`
raises `JSONDecodeError`.  Returns the parsed list verbatim. -/
def callBiasLLM (service : List AnalysisItem → String)
    (jsonLoads : String → Option Json)
    (llmItems : List AnalysisItem) : Except LLMFailure (List Json) :=
  if llmItems.isEmpty then .ok []
  else
    let outputText := service llmItems
    match jsonLoads outputText with
    | none => .error (.nonJsonOutput outputText)
    | some parsed =>
      match parsed with
      | .arr xs => .ok xs
      | other => .error (.outputNotList other)

/-- Number of outbound service calls performed by one run of
`callBiasLLM`: zero on the empty-input fast path (source lines 28-30),
one otherwise (the single `client.responses.create` call, line 87). -/
def callBiasLLMOutboundCalls (llmItems : List AnalysisItem) : Nat :=
  if llmItems.isEmpty then 0 else 1

/-- `label = item.get("label", "None")` (source line 147). -/
def getLabel (j : Judgment) : String :=
  j.label.getD "None"

/-- `reason = item.get("reason", "")` (source line 148). -/
def getReason (j : Judgment) : String :=
  j.reason.getD ""

/-- Python list indexing `xs[i]` on a `List String`: a negative index
counts from the end (`i + len`), and an index that is still out of range
yields `none` (an IndexError in Python). -/
def pyGet (xs : List String) (i : Int) : Option String :=
  let j := if i < 0 then i + (xs.length : Int) else i
  if 0 ≤ j then xs.get? j.toNat else none

/-- Python dict assignment `m[k] = v` on an association list that keeps
keys unique: an existing binding of `k` is overwritten in place, a new
key is appended (insertion order, as in a Python dict). -/
def dictInsert (m : List (Int × ResultEntry)) (k : Int) (v : ResultEntry) :
    List (Int × ResultEntry) :=
  if m.any (fun p => p.1 == k) then
    m.map (fun p => if p.1 == k then (k, v) else p)
  else m ++ [(k, v)]

/-- One iteration of the `for item in llmOutputs` loop of `analyzeBias`
(source lines 145-157): read the index, default the label and reason,
and if the label is truthy and not the neutral tag, look up the original
paragraph (IndexError if out of range) and store the entry keyed by
index. -/
def step (paragraphs : List String) (m : List (Int × ResultEntry))
    (j : Judgment) : Except PyError (List (Int × ResultEntry)) :=
  let idx := j.index
  let label := getLabel j
  let reason := getReason j
  if label ≠ "" ∧ label ≠ "None" then
    match pyGet paragraphs idx with
    | some t => .ok (dictInsert m idx ⟨idx, t, label, reason⟩)
    | none => .error (.indexError idx)
  else .ok m

/-- The key ordering used to sort the results dict by ascending index
(`sorted(results.keys())`, source line 163). -/
def keyLe (a b : Int × ResultEntry) : Prop :=
  a.1 ≤ b.1

instance : DecidableRel keyLe := fun a b => inferInstanceAs (Decidable (a.1 ≤ b.1))

instance : IsTotal (Int × ResultEntry) keyLe := ⟨fun a b => Int.le_total a.1 b.1⟩

instance : IsTrans (Int × ResultEntry) keyLe := ⟨fun _ _ _ h h' => le_trans h h'⟩

/-- The results dict listed in ascending key order (source lines 162-170).
Keys in the dict are unique, so any correct sort produces the same list
as Python's `sorted`. -/
def sortByKey (m : List (Int × ResultEntry)) : List (Int × ResultEntry) :=
  m.insertionSort keyLe

/-- `llmItems`, the indexed paragraph list built at source lines 138-139. -/
def mkLlmItems (paragraphs : List String) : List AnalysisItem :=
  paragraphs.enum.map (fun p => ⟨p.1, p.2⟩)

/-- `analyzeBias` (source lines 132-173), parametrised by the list of
judgments the adapter returned (`llmOutputs = callBiasLLM(llmItems)`).
When `llmItems` is empty the adapter is never invoked and the results
dict stays empty; otherwise every judgment is folded through `step`.
The final list is the dict's entries in ascending key order. -/
def analyzeBias (paragraphs : List String) (llmOutputs : List Judgment) :
    Except PyError (List ResultEntry) :=
  let llmItems := mkLlmItems paragraphs
  match (if llmItems.isEmpty then Except.ok []
         else llmOutputs.foldlM (step paragraphs) []) with
  | .error e => .error e
  | .ok results => .ok ((sortByKey results).map Prod.snd)

/-- Number of outbound service calls performed by one run of
`analyzeBias`: the call to `callBiasLLM` is guarded by `if llmItems:`
(source line 142). -/
def analyzeBiasOutboundCalls (paragraphs : List String) : Nat :=
  let llmItems := mkLlmItems paragraphs
  if llmItems.isEmpty then 0 else callBiasLLMOutboundCalls llmItems

/-- Whether a judgment passes the filter `if label and label != "None"`
(source line 150) and therefore writes an entry into the results dict. -/
def isWrite (j : Judgment) : Prop :=
  getLabel j ≠ "" ∧ getLabel j ≠ "None"

instance : DecidablePred isWrite := fun j =>
  inferInstanceAs (Decidable (getLabel j ≠ "" ∧ getLabel j ≠ "None"))

/-- The first judgment in the list whose index is `i` and which passes the
filter. -/
def firstWriteFor (i : Int) : List Judgment → Option Judgment
  | [] => none
  | j :: rest => if j.index = i ∧ isWrite j then some j else firstWriteFor i rest

/-- The last judgment in the list whose index is `i` and which passes the
filter: the judgment whose write into the results dict survives
(last write wins). -/
def lastWriteFor (js : List Judgment) (i : Int) : Option Judgment :=
  firstWriteFor i js.reverse

/-- Whether a JSON value is a list. -/
def Json.isArr : Json → Bool
  | .arr _ => true
  | _ => false

/-- Erase any echoed text carried inside the judgments. -/
def eraseJtext (j : Judgment) : Judgment :=
  ⟨j.index, j.label, j.reason, none⟩

/-- The invariant of the results dict after an adapter output prefix `js`
has been folded through `step`: keys are unique, every stored entry sits
under its own index as key, its text is the original paragraph looked up
at that key, and its label and reason come from the last filter-passing
judgment for that key. -/
def GoodMap (ps : List String) (js : List Judgment)
    (m : List (Int × ResultEntry)) : Prop :=
  (m.map Prod.fst).Nodup ∧
  ∀ p ∈ m, p.2.index = p.1 ∧ pyGet ps p.1 = some p.2.text ∧
    ∃ jw, lastWriteFor js p.1 = some jw ∧
      p.2.label = getLabel jw ∧ p.2.reason = getReason jw

theorem firstWriteFor_mem {i : Int} {js : List Judgment} {j : Judgment}
    (h : firstWriteFor i js = some j) : j ∈ js ∧ j.index = i ∧ isWrite j := by
  induction js with
  | nil => simp [firstWriteFor] at h
  | cons a rest ih =>
    by_cases hc : a.index = i ∧ isWrite a
    · simp [firstWriteFor, hc] at h
      exact ⟨by simp [← h], h ▸ hc.1, h ▸ hc.2⟩
    · simp [firstWriteFor, hc] at h
      rcases ih h with ⟨hm, hi, hw⟩
      exact ⟨List.mem_cons_of_mem _ hm, hi, hw⟩

theorem lastWriteFor_mem {i : Int} {js : List Judgment} {j : Judgment}
    (h : lastWriteFor js i = some j) : j ∈ js ∧ j.index = i ∧ isWrite j := by
  rcases firstWriteFor_mem h with ⟨hm, hi, hw⟩
  exact ⟨List.mem_reverse.mp hm, hi, hw⟩

theorem lastWriteFor_snoc (pre : List Judgment) (j : Judgment) (i : Int) :
    lastWriteFor (pre ++ [j]) i =
      if j.index = i ∧ isWrite j then some j else lastWriteFor pre i := by
  unfold lastWriteFor
  rw [List.reverse_append]
  simp [firstWriteFor]

theorem mem_dictInsert {m : List (Int × ResultEntry)} {k : Int}
    {v : ResultEntry} {p : Int × ResultEntry} (h : p ∈ dictInsert m k v) :
    p = (k, v) ∨ (p ∈ m ∧ p.1 ≠ k) := by
  unfold dictInsert at h
  by_cases hc : m.any (fun q => q.1 == k)
  · rw [if_pos hc] at h
    rcases List.mem_map.mp h with ⟨q, hq, hfq⟩
    by_cases hk : q.1 = k
    · left
      simp [hk] at hfq
      exact hfq.symm
    · right
      simp [hk] at hfq
      exact ⟨hfq ▸ hq, hfq ▸ hk⟩
  · rw [if_neg hc] at h
    rcases List.mem_append.mp h with hm | hs
    · right
      refine ⟨hm, ?_⟩
      intro hk
      exact hc (List.any_eq_true.mpr ⟨p, hm, by simp [hk]⟩)
    · left
      simpa using hs

theorem keys_dictInsert_nodup {m : List (Int × ResultEntry)} {k : Int}
    {v : ResultEntry} (h : (m.map Prod.fst).Nodup) :
    ((dictInsert m k v).map Prod.fst).Nodup := by
  unfold dictInsert
  by_cases hc : m.any (fun q => q.1 == k)
  · rw [if_pos hc]
    have : (m.map (fun p => if p.1 == k then (k, v) else p)).map Prod.fst
        = m.map Prod.fst := by
      rw [List.map_map]
      apply List.map_congr_left
      intro p _
      by_cases hk : p.1 = k
      · simp [hk]
      · simp [hk]
    rw [this]
    exact h
  · rw [if_neg hc]
    rw [List.map_append]
    refine List.nodup_append.mpr ⟨h, List.nodup_singleton _, ?_⟩
    intro a ha hb
    simp at hb
    rcases List.mem_map.mp ha with ⟨q, hq, hfq⟩
    apply hc
    exact List.any_eq_true.mpr ⟨q, hq, by simp [hfq, hb]⟩

theorem ok_bind {ε α β : Type} (a : α) (f : α → Except ε β) :
    (Except.ok a >>= f) = f a := rfl

theorem err_bind {ε α β : Type} (e : ε) (f : α → Except ε β) :
    ((Except.error e : Except ε α) >>= f) = Except.error e := rfl

theorem step_skip (ps : List String) (m : List (Int × ResultEntry))
    (j : Judgment) (h : ¬ isWrite j) : step ps m j = .ok m := by
  unfold isWrite at h
  simp [step, h]

theorem step_write (ps : List String) (m : List (Int × ResultEntry))
    (j : Judgment) (t : String) (hw : isWrite j)
    (ht : pyGet ps j.index = some t) :
    step ps m j =
      .ok (dictInsert m j.index ⟨j.index, t, getLabel j, getReason j⟩) := by
  unfold isWrite at hw
  simp [step, hw, ht]

theorem step_err (ps : List String) (m : List (Int × ResultEntry))
    (j : Judgment) (hw : isWrite j) (ht : pyGet ps j.index = none) :
    step ps m j = .error (.indexError j.index) := by
  unfold isWrite at hw
  simp [step, hw, ht]

theorem GoodMap_nil (ps : List String) : GoodMap ps [] [] :=
  ⟨List.nodup_nil, fun p hp => absurd hp (List.not_mem_nil p)⟩

theorem step_inv (ps : List String) (pre : List Judgment)
    (m m1 : List (Int × ResultEntry)) (j : Judgment) (hg : GoodMap ps pre m)
    (hs : step ps m j = .ok m1) : GoodMap ps (pre ++ [j]) m1 := by
  by_cases hw : isWrite j
  · cases ht : pyGet ps j.index with
    | none =>
      rw [step_err ps m j hw ht] at hs
      cases hs
    | some t =>
      rw [step_write ps m j t hw ht] at hs
      cases hs
      constructor
      · exact keys_dictInsert_nodup hg.1
      · intro p hp
        rcases mem_dictInsert hp with rfl | ⟨hpm, hpk⟩
        · refine ⟨rfl, ht, j, ?_, rfl, rfl⟩
          rw [lastWriteFor_snoc, if_pos ⟨rfl, hw⟩]
        · rcases hg.2 p hpm with ⟨hidx, hget, jw, hlw, hlab, hre⟩
          refine ⟨hidx, hget, jw, ?_, hlab, hre⟩
          rw [lastWriteFor_snoc, if_neg (fun hc => hpk (hc.1.symm))]
          exact hlw
  · rw [step_skip ps m j hw] at hs
    cases hs
    refine ⟨hg.1, fun p hp => ?_⟩
    rcases hg.2 p hp with ⟨hidx, hget, jw, hlw, hlab, hre⟩
    refine ⟨hidx, hget, jw, ?_, hlab, hre⟩
    rw [lastWriteFor_snoc, if_neg (fun hc => hw hc.2)]
    exact hlw

theorem foldlM_inv (ps : List String) (js : List Judgment) :
    ∀ (pre : List Judgment) (m m' : List (Int × ResultEntry)),
    GoodMap ps pre m → List.foldlM (step ps) m js = Except.ok m' →
    GoodMap ps (pre ++ js) m' := by
  induction js with
  | nil =>
    intro pre m m' hg h
    simp only [List.foldlM_nil] at h
    cases h
    simpa using hg
  | cons j rest ih =>
    intro pre m m' hg h
    rw [List.foldlM_cons] at h
    cases hs : step ps m j with
    | error e =>
      rw [hs, err_bind] at h
      cases h
    | ok m1 =>
      rw [hs, ok_bind] at h
      have h1 := step_inv ps pre m m1 j hg hs
      have h2 := ih (pre ++ [j]) m1 m' h1 h
      simpa [List.append_assoc] using h2

theorem foldlM_skip (ps : List String) (j : Judgment) (hj : ¬ isWrite j)
    (l₁ l₂ : List Judgment) :
    ∀ m, List.foldlM (step ps) m (l₁ ++ j :: l₂) =
      List.foldlM (step ps) m (l₁ ++ l₂) := by
  induction l₁ with
  | nil =>
    intro m
    simp only [List.nil_append, List.foldlM_cons, step_skip ps m j hj, ok_bind]
  | cons a l₁ ih =>
    intro m
    rw [List.cons_append, List.cons_append, List.foldlM_cons, List.foldlM_cons]
    cases hs : step ps m a with
    | error e => rw [err_bind, err_bind]
    | ok m1 => rw [ok_bind, ok_bind, ih m1]

theorem foldlM_ok_lookup (ps : List String) (js : List Judgment) :
    ∀ (m m' : List (Int × ResultEntry)),
    List.foldlM (step ps) m js = Except.ok m' →
    ∀ j ∈ js, isWrite j → pyGet ps j.index ≠ none := by
  induction js with
  | nil =>
    intro m m' _ j hj
    exact absurd hj (List.not_mem_nil j)
  | cons a rest ih =>
    intro m m' h j hj hw hn
    rw [List.foldlM_cons] at h
    cases hs : step ps m a with
    | error e =>
      rw [hs, err_bind] at h
      cases h
    | ok m1 =>
      rw [hs, ok_bind] at h
      rcases List.mem_cons.mp hj with rfl | hj2
      · rw [step_err ps m j hw hn] at hs
        cases hs
      · exact ih m1 m' h j hj2 hw hn

theorem pyGet_nonneg (xs : List String) (i : Int) (h : 0 ≤ i) :
    pyGet xs i = xs.get? i.toNat := by
  simp only [pyGet]
  rw [if_neg (not_lt.mpr h), if_pos h]

theorem pyGet_eq_none_iff (xs : List String) (i : Int) :
    pyGet xs i = none ↔ ((xs.length : Int) ≤ i ∨ i + (xs.length : Int) < 0) := by
  simp only [pyGet]
  by_cases hi : i < 0
  · rw [if_pos hi]
    by_cases hj : 0 ≤ i + (xs.length : Int)
    · rw [if_pos hj, List.get?_eq_none]
      omega
    · rw [if_neg hj]
      simp only [true_iff]
      omega
  · rw [if_neg hi, if_pos (not_lt.mp hi), List.get?_eq_none]
    omega

theorem mkLlmItems_isEmpty (ps : List String) :
    (mkLlmItems ps).isEmpty = ps.isEmpty := by
  cases ps <;> simp [mkLlmItems]

theorem analyzeBias_nil (js : List Judgment) :
    analyzeBias [] js = .ok ([] : List ResultEntry) := rfl

theorem sortByKey_perm (m : List (Int × ResultEntry)) : (sortByKey m).Perm m :=
  List.perm_insertionSort keyLe m

theorem sortByKey_sorted (m : List (Int × ResultEntry)) :
    (sortByKey m).Pairwise keyLe :=
  List.sorted_insertionSort keyLe m

theorem analyzeBias_decomp (ps : List String) (js : List Judgment)
    (out : List ResultEntry) (hps : ps ≠ [])
    (h : analyzeBias ps js = .ok out) :
    ∃ m, List.foldlM (step ps) [] js = Except.ok m ∧ GoodMap ps js m ∧
      out = (sortByKey m).map Prod.snd := by
  have hne : (mkLlmItems ps).isEmpty = false := by
    rw [mkLlmItems_isEmpty]
    cases ps with
    | nil => exact absurd rfl hps
    | cons a l => rfl
  unfold analyzeBias at h
  simp only [hne, Bool.false_eq_true, if_false] at h
  cases hf : List.foldlM (step ps) [] js with
  | error e =>
    rw [hf] at h
    cases h
  | ok m =>
    rw [hf] at h
    cases h
    refine ⟨m, rfl, ?_, rfl⟩
    have := foldlM_inv ps js [] [] m (GoodMap_nil ps) hf
    simpa using this

theorem mem_out (m : List (Int × ResultEntry)) (e : ResultEntry)
    (h : e ∈ (sortByKey m).map Prod.snd) : ∃ k, (k, e) ∈ m := by
  rcases List.mem_map.mp h with ⟨p, hp, hpe⟩
  cases p with
  | mk k v =>
    cases hpe
    exact ⟨k, (sortByKey_perm m).subset hp⟩

theorem out_pairwise (ps : List String) (js : List Judgment)
    (m : List (Int × ResultEntry)) (hg : GoodMap ps js m) :
    ((sortByKey m).map Prod.snd).Pairwise (fun a b => a.index < b.index) := by
  have hnodup : ((sortByKey m).map Prod.fst).Nodup :=
    ((sortByKey_perm m).map Prod.fst).nodup_iff.mpr hg.1
  have hne : (sortByKey m).Pairwise (fun p q => p.1 ≠ q.1) :=
    List.pairwise_map.mp hnodup
  have hlt : (sortByKey m).Pairwise (fun p q => p.1 < q.1) :=
    ((sortByKey_sorted m).and hne).imp (fun h => lt_of_le_of_ne h.1 h.2)
  rw [List.pairwise_map]
  refine List.Pairwise.imp_of_mem ?_ hlt
  intro p q hp hq hpq
  have hpi := (hg.2 p ((sortByKey_perm m).subset hp)).1
  have hqi := (hg.2 q ((sortByKey_perm m).subset hq)).1
  rw [hpi, hqi]
  exact hpq

theorem isEmpty_false_of_ne_nil {α : Type} {l : List α} (h : l ≠ []) :
    l.isEmpty = false := by
  cases l with
  | nil => exact absurd rfl h
  | cons a t => rfl

theorem analyzeBias_skip (ps : List String) (j : Judgment) (hj : ¬ isWrite j)
    (l₁ l₂ : List Judgment) :
    analyzeBias ps (l₁ ++ j :: l₂) = analyzeBias ps (l₁ ++ l₂) := by
  unfold analyzeBias
  cases he : (mkLlmItems ps).isEmpty
  · simp only [he, Bool.false_eq_true, if_false, foldlM_skip ps j hj l₁ l₂]
  · simp only [he, if_true]

theorem foldlM_eraseJtext (ps : List String) (js : List Judgment) :
    ∀ m, List.foldlM (step ps) m (js.map eraseJtext) =
      List.foldlM (step ps) m js := by
  induction js with
  | nil => intro m; rfl
  | cons j rest ih =>
    intro m
    rw [List.map_cons, List.foldlM_cons, List.foldlM_cons]
    have hstep : step ps m (eraseJtext j) = step ps m j := rfl
    rw [hstep]
    cases hs : step ps m j with
    | error e => rw [err_bind, err_bind]
    | ok m1 => rw [ok_bind, ok_bind, ih m1]

theorem analyzeBias_eraseJtext (ps : List String) (js : List Judgment) :
    analyzeBias ps (js.map eraseJtext) = analyzeBias ps js := by
  unfold analyzeBias
  cases he : (mkLlmItems ps).isEmpty
  · simp only [he, Bool.false_eq_true, if_false, foldlM_eraseJtext ps js]
  · simp only [he, if_true]

/-- Claim C1: for every non-empty paragraph list and every adapter output,
every entry of the final output of `analyzeBias` carries a label that is
not the neutral tag "None", and that label is the label of an actual
filter-passing judgment for that index; judgments labelled "None" never
produce an entry. -/
theorem C1_no_neutral_in_output (ps : List String) (js : List Judgment)
    (out : List ResultEntry) (e : ResultEntry) (hps : ps ≠ [])
    (h : analyzeBias ps js = .ok out) (he : e ∈ out) :
    e.label ≠ "None" ∧ (lastWriteFor js e.index).map getLabel = some e.label := by
  rcases analyzeBias_decomp ps js out hps h with ⟨m, hf, hg, rfl⟩
  rcases mem_out m e he with ⟨k, hk⟩
  rcases hg.2 (k, e) hk with ⟨hidx, hget, jw, hlw, hlab, hre⟩
  have hwmem := lastWriteFor_mem hlw
  constructor
  · rw [hlab]
    exact hwmem.2.2.2
  · rw [hidx, hlw]
    exact congrArg some hlab.symm

theorem C1_witness :
    (ResultEntry.mk 0 "A" "Misleading" "r").label ≠ "None" ∧
      (lastWriteFor [Judgment.mk 0 (some "Misleading") (some "r") none]
        (ResultEntry.mk 0 "A" "Misleading" "r").index).map getLabel =
        some (ResultEntry.mk 0 "A" "Misleading" "r").label :=
  C1_no_neutral_in_output ["A"] [Judgment.mk 0 (some "Misleading") (some "r") none]
    [ResultEntry.mk 0 "A" "Misleading" "r"] (ResultEntry.mk 0 "A" "Misleading" "r")
    (by decide) rfl (by decide)

/-- Claim C2: for every paragraph list and every adapter output, the list
returned by `analyzeBias` is ordered by strictly ascending index,
whatever order the judgments arrived in. -/
theorem C2_output_sorted (ps : List String) (js : List Judgment)
    (out : List ResultEntry) (h : analyzeBias ps js = .ok out) :
    out.Pairwise (fun a b => a.index < b.index) := by
  by_cases hps : ps = []
  · subst hps
    rw [analyzeBias_nil] at h
    cases h
    exact List.Pairwise.nil
  · rcases analyzeBias_decomp ps js out hps h with ⟨m, hf, hg, rfl⟩
    exact out_pairwise ps js m hg

theorem C2_witness :
    ([ResultEntry.mk 0 "A" "misleading" "r0",
      ResultEntry.mk 1 "B" "ad hominem" "r1"] : List ResultEntry).Pairwise
      (fun a b => a.index < b.index) :=
  C2_output_sorted ["A", "B", "C"]
    [Judgment.mk 1 (some "ad hominem") (some "r1") none,
     Judgment.mk 2 (some "None") (some "r2") none,
     Judgment.mk 0 (some "misleading") (some "r0") none]
    [ResultEntry.mk 0 "A" "misleading" "r0",
     ResultEntry.mk 1 "B" "ad hominem" "r1"] (by decide)

/-- Claim C3: every output entry of `analyzeBias` whose index is a valid
position carries exactly the original paragraph at that index as its
`text`; the text a judgment itself carries is never consulted (erasing it
changes nothing). -/
theorem C3_text_from_original (ps : List String) (js : List Judgment)
    (out : List ResultEntry) (e : ResultEntry)
    (h : analyzeBias ps js = .ok out) (he : e ∈ out) (h0 : 0 ≤ e.index) :
    ps.get? e.index.toNat = some e.text ∧
      analyzeBias ps (js.map eraseJtext) = analyzeBias ps js := by
  refine ⟨?_, analyzeBias_eraseJtext ps js⟩
  by_cases hps : ps = []
  · subst hps
    rw [analyzeBias_nil] at h
    cases h
    exact absurd he (List.not_mem_nil e)
  · rcases analyzeBias_decomp ps js out hps h with ⟨m, hf, hg, rfl⟩
    rcases mem_out m e he with ⟨k, hk⟩
    rcases hg.2 (k, e) hk with ⟨hidx, hget, _, _, _, _⟩
    rw [← pyGet_nonneg ps e.index h0, hidx]
    exact hget

theorem C3_witness :
    (["Orig"] : List String).get?
        (ResultEntry.mk 0 "Orig" "Misleading" "r").index.toNat =
      some (ResultEntry.mk 0 "Orig" "Misleading" "r").text ∧
      analyzeBias ["Orig"]
          ([Judgment.mk 0 (some "Misleading") (some "r") (some "ECHOED")].map
            eraseJtext) =
        analyzeBias ["Orig"]
          [Judgment.mk 0 (some "Misleading") (some "r") (some "ECHOED")] :=
  C3_text_from_original ["Orig"]
    [Judgment.mk 0 (some "Misleading") (some "r") (some "ECHOED")]
    [ResultEntry.mk 0 "Orig" "Misleading" "r"]
    (ResultEntry.mk 0 "Orig" "Misleading" "r") rfl (by decide) (by decide)

/-- Claim C4: a judgment with no `label` key defaults to the neutral tag
"None" and a judgment with no `reason` key defaults to the empty string;
a judgment whose label defaulted to the neutral tag contributes nothing
to the output of `analyzeBias`. -/
theorem C4_missing_field_defaults (ps : List String) (l₁ l₂ : List Judgment)
    (j j2 : Judgment) (hl : j.label = none) (hr : j2.reason = none) :
    getLabel j = "None" ∧ getReason j2 = "" ∧
      analyzeBias ps (l₁ ++ j :: l₂) = analyzeBias ps (l₁ ++ l₂) := by
  have hlab : getLabel j = "None" := by
    unfold getLabel
    rw [hl]
    rfl
  refine ⟨hlab, ?_, analyzeBias_skip ps j (fun hw => hw.2 hlab) l₁ l₂⟩
  unfold getReason
  rw [hr]
  rfl

theorem C4_witness :
    getLabel (Judgment.mk 0 none (some "x") none) = "None" ∧
      getReason (Judgment.mk 0 (some "Misleading") none none) = "" ∧
      analyzeBias ["A"] ([] ++ Judgment.mk 0 none (some "x") none :: []) =
        analyzeBias ["A"] ([] ++ []) :=
  C4_missing_field_defaults ["A"] [] [] (Judgment.mk 0 none (some "x") none)
    (Judgment.mk 0 (some "Misleading") none none) (by decide) (by decide)

/-- Claim C5, counterexample: a judgment with index -1 is outside the
valid positions of the one-paragraph list ["A"], yet `analyzeBias` does
not fail: Python's negative indexing wraps around and the lookup returns
the last paragraph, so the call succeeds. -/
theorem C5_counterexample :
    analyzeBias ["A"] [Judgment.mk (-1) (some "Misleading") (some "r") none] =
      .ok [ResultEntry.mk (-1) "A" "Misleading" "r"] ∧
      (analyzeBias ["A"]
        [Judgment.mk (-1) (some "Misleading") (some "r") none]).isOk = true := by
  exact ⟨rfl, rfl⟩

/-- Claim C5, amended: a filter-passing judgment (truthy, non-neutral
label) whose index is at least the paragraph count, or less than minus
the paragraph count, makes `analyzeBias` fail fatally with an unhandled
IndexError; a negative index not below minus the count wraps around
Python-style and succeeds instead of failing. -/
theorem C5_out_of_range_fatal (ps : List String) (js : List Judgment)
    (j : Judgment) (hps : ps ≠ []) (hj : j ∈ js)
    (hw : getLabel j ≠ "" ∧ getLabel j ≠ "None")
    (hrange : (ps.length : Int) ≤ j.index ∨ j.index + (ps.length : Int) < 0) :
    (analyzeBias ps js).isOk = false := by
  cases hres : analyzeBias ps js with
  | error e => rfl
  | ok out =>
    exfalso
    rcases analyzeBias_decomp ps js out hps hres with ⟨m, hf, _, _⟩
    exact foldlM_ok_lookup ps js [] m hf j hj hw
      ((pyGet_eq_none_iff ps j.index).mpr hrange)

theorem C5_witness :
    (analyzeBias ["A"]
      [Judgment.mk 1 (some "Misleading") (some "r") none]).isOk = false :=
  C5_out_of_range_fatal ["A"] [Judgment.mk 1 (some "Misleading") (some "r") none]
    (Judgment.mk 1 (some "Misleading") (some "r") none) (by decide) (by decide)
    (by decide) (by decide)

/-- Claim C6: when the adapter returns several judgments with the same
index, the output entry stored for that index is determined by the last
filter-passing judgment with that index (last write wins): its label and
reason are that judgment's, and its text is the original paragraph. -/
theorem C6_last_write_wins (ps : List String) (js : List Judgment)
    (out : List ResultEntry) (e : ResultEntry)
    (h : analyzeBias ps js = .ok out) (he : e ∈ out) :
    (lastWriteFor js e.index).map getLabel = some e.label ∧
      (lastWriteFor js e.index).map getReason = some e.reason ∧
      pyGet ps e.index = some e.text := by
  by_cases hps : ps = []
  · subst hps
    rw [analyzeBias_nil] at h
    cases h
    exact absurd he (List.not_mem_nil e)
  · rcases analyzeBias_decomp ps js out hps h with ⟨m, hf, hg, rfl⟩
    rcases mem_out m e he with ⟨k, hk⟩
    rcases hg.2 (k, e) hk with ⟨hidx, hget, jw, hlw, hlab, hre⟩
    rw [hidx, hlw]
    exact ⟨congrArg some hlab.symm, congrArg some hre.symm, hget⟩

theorem C6_witness :
    (lastWriteFor
        [Judgment.mk 0 (some "X") (some "a") none,
         Judgment.mk 0 (some "Y") (some "b") none]
        (ResultEntry.mk 0 "A" "Y" "b").index).map getLabel =
      some (ResultEntry.mk 0 "A" "Y" "b").label ∧
      (lastWriteFor
          [Judgment.mk 0 (some "X") (some "a") none,
           Judgment.mk 0 (some "Y") (some "b") none]
          (ResultEntry.mk 0 "A" "Y" "b").index).map getReason =
        some (ResultEntry.mk 0 "A" "Y" "b").reason ∧
      pyGet ["A", "B"] (ResultEntry.mk 0 "A" "Y" "b").index =
        some (ResultEntry.mk 0 "A" "Y" "b").text :=
  C6_last_write_wins ["A", "B"]
    [Judgment.mk 0 (some "X") (some "a") none,
     Judgment.mk 0 (some "Y") (some "b") none]
    [ResultEntry.mk 0 "A" "Y" "b"] (ResultEntry.mk 0 "A" "Y" "b")
    rfl (by decide)

/-- Claim C7: when the raw service response does not parse as JSON,
`callBiasLLM` fails with the non-JSON RuntimeError, and that error's
message is the fixed prefix followed by the raw response text, so it
contains the raw text. -/
theorem C7_non_json_error (service : List AnalysisItem → String)
    (jsonLoads : String → Option Json) (llmItems : List AnalysisItem)
    (raw : String) (hne : llmItems ≠ []) (hraw : service llmItems = raw)
    (hparse : jsonLoads raw = none) :
    callBiasLLM service jsonLoads llmItems = .error (.nonJsonOutput raw) ∧
      nonJsonMessage raw = "[Log] LLM returned non JSON output: " ++ raw := by
  refine ⟨?_, rfl⟩
  unfold callBiasLLM
  simp only [isEmpty_false_of_ne_nil hne, Bool.false_eq_true, if_false, hraw,
    hparse]

theorem C7_witness :
    callBiasLLM (fun _ => "not json") (fun _ => none)
        [AnalysisItem.mk 0 "A"] = .error (.nonJsonOutput "not json") ∧
      nonJsonMessage "not json" =
        "[Log] LLM returned non JSON output: " ++ "not json" :=
  C7_non_json_error (fun _ => "not json") (fun _ => none)
    [AnalysisItem.mk 0 "A"] "not json" (by decide) rfl rfl

/-- Claim C8: when the raw service response parses as JSON but the parsed
value is not a list, `callBiasLLM` fails with the shape RuntimeError
carrying the parsed value, instead of returning a value. -/
theorem C8_not_list_error (service : List AnalysisItem → String)
    (jsonLoads : String → Option Json) (llmItems : List AnalysisItem)
    (p : Json) (hne : llmItems ≠ [])
    (hparse : jsonLoads (service llmItems) = some p)
    (hnl : p.isArr = false) :
    callBiasLLM service jsonLoads llmItems = .error (.outputNotList p) := by
  unfold callBiasLLM
  simp only [isEmpty_false_of_ne_nil hne, Bool.false_eq_true, if_false, hparse]
  cases p with
  | null => rfl
  | bool b => rfl
  | num n => rfl
  | str s => rfl
  | arr xs => simp [Json.isArr] at hnl
  | obj fs => rfl

theorem C8_witness :
    callBiasLLM (fun _ => "\x7b\x7d") (fun _ => some (Json.obj []))
        [AnalysisItem.mk 0 "A"] = .error (.outputNotList (Json.obj [])) :=
  C8_not_list_error (fun _ => "\x7b\x7d") (fun _ => some (Json.obj []))
    [AnalysisItem.mk 0 "A"] (Json.obj []) (by decide) rfl rfl

/-- Claim C9: on an empty paragraph list `analyzeBias` returns the empty
list and performs no outbound service call. -/
theorem C9_empty_fast_path (js : List Judgment) :
    analyzeBias [] js = .ok ([] : List ResultEntry) ∧
      analyzeBiasOutboundCalls [] = 0 :=
  ⟨analyzeBias_nil js, rfl⟩

/-- Claim C10: a judgment whose `label` key is present but holds the empty
string is excluded from the output of `analyzeBias` (the Python filter
`if label and label != "None"` rejects falsy labels), even though the
empty string differs from the neutral tag "None". -/
theorem C10_empty_label_excluded (ps : List String) (l₁ l₂ : List Judgment)
    (j : Judgment) (hl : j.label = some "") :
    analyzeBias ps (l₁ ++ j :: l₂) = analyzeBias ps (l₁ ++ l₂) ∧
      getLabel j = "" ∧ ("" : String) ≠ "None" := by
  have hlab : getLabel j = "" := by
    unfold getLabel
    rw [hl]
    rfl
  exact ⟨analyzeBias_skip ps j (fun hw => hw.1 hlab) l₁ l₂, hlab, by decide⟩

theorem C10_witness :
    analyzeBias ["A"] ([] ++ Judgment.mk 0 (some "") (some "x") none :: []) =
        analyzeBias ["A"] ([] ++ []) ∧
      getLabel (Judgment.mk 0 (some "") (some "x") none) = "" ∧
      ("" : String) ≠ "None" :=
  C10_empty_label_excluded ["A"] [] [] (Judgment.mk 0 (some "") (some "x") none)
    (by decide)

end UnBiased
